import Mathlib

/-!
# Verification of the incremental reporting synchronization engine

Shallow embedding, in Lean 4, of the expense-tracker repository's reporting
synchronization core (`database/init_db.py`, function `update_reporting_db`)
together with the pieces of the command layer
(`src/commands/expense_handler.py`, `src/commands/commands.py`) that mutate
the source `expenses` table.

Timestamps are modelled as `String`, exactly as SQLite stores them
(`YYYY-MM-DD HH:MM:SS` text compared lexicographically); tables are modelled
as lists of rows in insertion order, and the SQL statements executed by the
Python code are translated statement by statement into pure functions on
those lists.
-/

namespace ExpenseShare

/-- SQLite TEXT timestamp, compared lexicographically. -/
abbrev Timestamp := String

/-- SQLite's `>` on TEXT values: strict lexicographic comparison of the
underlying character lists (`a.data < b.data` is definitionally `a < b`
for `String`). -/
def tsLtb (a b : Timestamp) : Bool := decide (a.data < b.data)

/-- Row of the source `users` table (columns read by the sync engine). -/
structure UserRow where
  user_id : Nat
  username : String
  deriving Repr, DecidableEq

/-- Row of the source `categories` table (columns read by the sync engine). -/
structure CategoryRow where
  category_id : Nat
  category_name : String
  deriving Repr, DecidableEq

/-- Row of the source `payment_methods` table (columns read by the sync engine). -/
structure PaymentMethodRow where
  payment_method_id : Nat
  name : String
  deriving Repr, DecidableEq

/-- Row of the source `expenses` table.  `amount` is kept abstract as an
integer number of currency minor units; the sync engine only copies it. -/
structure ExpenseRow where
  expense_id : Nat
  user_id : Nat
  category_id : Nat
  payment_method_id : Nat
  amount : Int
  expense_date : Timestamp
  description : Option String
  tag : String
  is_deleted : Bool
  created_at : Timestamp
  updated_at : Timestamp
  deriving Repr, DecidableEq

/-- The normalized source store (`database/app.db`). -/
structure SourceDB where
  users : List UserRow
  categories : List CategoryRow
  payment_methods : List PaymentMethodRow
  expenses : List ExpenseRow
  deriving Repr, DecidableEq

/-- Row of the reporting table `denormalized_expenses`. -/
structure DenormRow where
  expense_id : Nat
  username : String
  category_name : String
  payment_method_name : String
  amount : Int
  expense_date : Timestamp
  description : Option String
  tag : String
  created_at : Timestamp
  updated_at : Timestamp
  deriving Repr, DecidableEq

/-- The reporting store (`database/reporting.db`): the denormalized table
plus the single-row `sync_metadata` watermark. -/
structure ReportingDB where
  denormalized_expenses : List DenormRow
  last_sync_time : Timestamp
  deriving Repr, DecidableEq

/-- The reporting store as `init_reporting_db` creates it: empty table,
watermark `1970-01-01 00:00:00`. -/
def init_reporting_db : ReportingDB :=
  { denormalized_expenses := [], last_sync_time := "1970-01-01 00:00:00" }

/-- The denormalized projection of one joined row, exactly the SELECT list of
the changed-set query in `update_reporting_db`. -/
def rowOf (e : ExpenseRow) (u : UserRow) (c : CategoryRow) (p : PaymentMethodRow) :
    DenormRow :=
  { expense_id := e.expense_id
    username := u.username
    category_name := c.category_name
    payment_method_name := p.name
    amount := e.amount
    expense_date := e.expense_date
    description := e.description
    tag := e.tag
    created_at := e.created_at
    updated_at := e.updated_at }

/-- The three inner joins of the changed-set query: an expense row joined
against its user, category and payment-method dimension rows.  Primary keys
make each dimension lookup unique; an inner join contributes nothing when a
dimension row is missing, hence the `Option`. -/
def joinDims (s : SourceDB) (e : ExpenseRow) : Option DenormRow :=
  match s.users.find? (fun u => u.user_id == e.user_id),
        s.categories.find? (fun c => c.category_id == e.category_id),
        s.payment_methods.find? (fun p => p.payment_method_id == e.payment_method_id) with
  | some u, some c, some p => some (rowOf e u c p)
  | _, _, _ => none

/-- The WHERE clause of the changed-set query:
`e.updated_at > ? AND e.is_deleted = 0`. -/
def changedPred (w : Timestamp) (e : ExpenseRow) : Bool :=
  tsLtb w e.updated_at && !e.is_deleted

/-- The WHERE clause of the deleted-set query:
`updated_at > ? AND is_deleted = 1`. -/
def deletedPred (w : Timestamp) (e : ExpenseRow) : Bool :=
  tsLtb w e.updated_at && e.is_deleted

/-- The expense rows selected by the changed-set query. -/
def changedSources (s : SourceDB) (w : Timestamp) : List ExpenseRow :=
  s.expenses.filter (changedPred w)

/-- The changed set: result rows of the changed-set query
(`updated_expenses` in the code). -/
def changedSet (s : SourceDB) (w : Timestamp) : List DenormRow :=
  (changedSources s w).filterMap (joinDims s)

/-- The deleted set: result of the deleted-expense query
(`deleted_expense_ids` in the code). -/
def deletedIds (s : SourceDB) (w : Timestamp) : List Nat :=
  (s.expenses.filter (deletedPred w)).map (fun e => e.expense_id)

/-- One SQL write statement executed on the reporting connection during a
sync pass, in program order:
* `upsert d` — the COUNT-check followed by either the UPDATE of every row
  with that `expense_id` or the INSERT of a fresh row (lines 159-209);
* `deleteBatch ids` — the single `DELETE ... WHERE expense_id IN (...)`
  statement, guarded by `if deleted_expense_ids:` (lines 219-225);
* `setWatermark t` — the `UPDATE sync_metadata SET last_sync_time = ?`
  statement (lines 227-230). -/
inductive TargetOp where
  | upsert (d : DenormRow)
  | deleteBatch (ids : List Nat)
  | setWatermark (t : Timestamp)
  deriving Repr, DecidableEq

/-- The COUNT-check-then-UPDATE-or-INSERT applied to the rows of
`denormalized_expenses`.  The SQL UPDATE rewrites every row whose
`expense_id` matches (the primary key makes it at most one); the INSERT
appends a new row. -/
def upsertRows (d : DenormRow) (rows : List DenormRow) : List DenormRow :=
  if rows.any (fun r => r.expense_id == d.expense_id) then
    rows.map (fun r => if r.expense_id == d.expense_id then d else r)
  else
    rows ++ [d]

/-- The batch delete: `DELETE FROM denormalized_expenses WHERE expense_id
IN (...)`, issued only when the id list is non-empty. -/
def deleteRows (ids : List Nat) (rows : List DenormRow) : List DenormRow :=
  if ids.isEmpty then rows
  else rows.filter (fun r => !(ids.contains r.expense_id))

/-- Effect of one reporting-store write statement. -/
def applyOp (r : ReportingDB) : TargetOp → ReportingDB
  | .upsert d => { r with denormalized_expenses := upsertRows d r.denormalized_expenses }
  | .deleteBatch ids => { r with denormalized_expenses := deleteRows ids r.denormalized_expenses }
  | .setWatermark t => { r with last_sync_time := t }

/-- The sequence of reporting-store write statements one pass of
`update_reporting_db` issues, given the watermark `w` it read and the
`current_time` value `now` it captured: the upsert loop over the changed
set, then the batch delete of the deleted set, then the watermark update. -/
def syncOps (s : SourceDB) (w : Timestamp) (now : Timestamp) : List TargetOp :=
  (changedSet s w).map TargetOp.upsert
    ++ [TargetOp.deleteBatch (deletedIds s w), TargetOp.setWatermark now]

/-- One successful pass of `update_reporting_db`: read the watermark,
capture `current_time = now`, issue every write of `syncOps`, commit.
`now` stands for the single `datetime.datetime.now()` sample taken at line
134, before the changed-set query is executed. -/
def update_reporting_db (s : SourceDB) (r : ReportingDB) (now : Timestamp) :
    ReportingDB :=
  (syncOps s r.last_sync_time now).foldl applyOp r

/-- State of the open reporting-store transaction: the durable committed
state (what any other connection, and the state after a rollback, sees) and
the uncommitted writes buffered by the connection in program order. -/
structure TxState where
  committed : ReportingDB
  pending : List TargetOp
  deriving Repr, DecidableEq

/-- Executing one write statement inside the open transaction: it is
buffered, the durable state is untouched. -/
def txExec (st : TxState) (op : TargetOp) : TxState :=
  { st with pending := st.pending ++ [op] }

/-- `reporting_conn.commit()`: the buffered writes take effect in order. -/
def txCommit (st : TxState) : ReportingDB :=
  st.pending.foldl applyOp st.committed

/-- A run that aborts after executing only the first `k` write statements
and never reaches `reporting_conn.commit()` (source unreachable, a failed
statement, a crash): the connection closes with the transaction open, so
the durable reporting state is its `committed` part. -/
def abortedRun (s : SourceDB) (r : ReportingDB) (now : Timestamp) (k : Nat) :
    ReportingDB :=
  (((syncOps s r.last_sync_time now).take k).foldl txExec ⟨r, []⟩).committed

/-- The `expense_id` primary key of the source `expenses` table: ids are
unique across rows. -/
def ExpensePKUnique (s : SourceDB) : Prop :=
  (s.expenses.map fun e => e.expense_id).Nodup

/-- The `expense_id` primary key of `denormalized_expenses`: ids are unique
across rows. -/
def DenormPKUnique (rows : List DenormRow) : Prop :=
  (rows.map fun d => d.expense_id).Nodup

instance (s : SourceDB) : Decidable (ExpensePKUnique s) := by
  unfold ExpensePKUnique; infer_instance

instance (rows : List DenormRow) : Decidable (DenormPKUnique rows) := by
  unfold DenormPKUnique; infer_instance

/-! ## The command layer's expense mutations

`src/commands/expense_handler.py`.  Only the row-level effect of the SQL
each handler executes is modelled; the authorization guards in front of the
statements do not touch the table. -/

/-- A value the command layer can bind into an UPDATE statement
(`new_value: Union[str, float]`, or NULL). -/
inductive SqlValue where
  | intV (n : Int)
  | textV (s : String)
  | nullV
  deriving Repr, DecidableEq

/-- Assignment of one bound value to one column of an expense row, as the
interpolated statement `UPDATE expenses SET {field} = ?` resolves it;
`none` models the `sqlite3.OperationalError` raised for an unknown column. -/
def setExpenseField (field : String) (v : SqlValue) (e : ExpenseRow) :
    Option ExpenseRow :=
  match field, v with
  | "user_id", .intV n => some { e with user_id := n.toNat }
  | "category_id", .intV n => some { e with category_id := n.toNat }
  | "payment_method_id", .intV n => some { e with payment_method_id := n.toNat }
  | "amount", .intV n => some { e with amount := n }
  | "expense_date", .textV d => some { e with expense_date := d }
  | "description", .textV d => some { e with description := some d }
  | "description", .nullV => some { e with description := none }
  | "tag", .textV d => some { e with tag := d }
  | "is_deleted", .intV n => some { e with is_deleted := n != 0 }
  | "created_at", .textV d => some { e with created_at := d }
  | "updated_at", .textV d => some { e with updated_at := d }
  | _, _ => none

/-- `ExpenseManager.update_expense` / `CommandHandler.handle_update_expense`:
the executed statement is `UPDATE expenses SET {field} = ? WHERE
expense_id = ?` — it assigns the one named column and nothing else. -/
def update_expense (expense_id : Nat) (field : String) (v : SqlValue)
    (tbl : List ExpenseRow) : Option (List ExpenseRow) :=
  tbl.mapM fun e =>
    if e.expense_id == expense_id then setExpenseField field v e else some e

/-- `ExpenseManager.delete_expense`: the executed statement is
`UPDATE expenses SET is_deleted = 1 WHERE expense_id = ?`. -/
def delete_expense (expense_id : Nat) (tbl : List ExpenseRow) : List ExpenseRow :=
  tbl.map fun e =>
    if e.expense_id == expense_id then { e with is_deleted := true } else e

/-! ## Lemmas about the reporting-store primitives -/

/-- The rows of `denormalized_expenses` carrying a given `expense_id` (the
result of `SELECT ... WHERE expense_id = ?`). -/
def rowsWithId (i : Nat) (rows : List DenormRow) : List DenormRow :=
  rows.filter (fun r => r.expense_id == i)

/-- The upsert loop of `update_reporting_db`, folded over a query result. -/
def applyUpserts (L : List DenormRow) (rows : List DenormRow) : List DenormRow :=
  L.foldl (fun acc d => upsertRows d acc) rows

/-- The watermark-write statements among a pass's reporting writes. -/
def isWatermarkWrite : TargetOp → Bool
  | .setWatermark _ => true
  | _ => false

/-! ## Concrete fixtures for witnesses and counterexamples -/

def sampleUser : UserRow := ⟨1, "alice"⟩

def sampleCategory : CategoryRow := ⟨1, "groceries"⟩

def samplePayment : PaymentMethodRow := ⟨1, "cash"⟩

def sampleExpense : ExpenseRow :=
  ⟨7, 1, 1, 1, 1250, "2024-01-01 00:00:00", some "milk", "food", false,
    "2024-01-01 00:00:00", "2024-01-01 00:00:00"⟩

def sampleSource : SourceDB :=
  ⟨[sampleUser], [sampleCategory], [samplePayment], [sampleExpense]⟩

/-- A source store whose only expense was soft-deleted after it was synced. -/
def softDeletedSource : SourceDB :=
  ⟨[sampleUser], [sampleCategory], [samplePayment], delete_expense 7 [sampleExpense]⟩

/-- A source store whose only expense has a dangling `category_id`. -/
def danglingSource : SourceDB :=
  ⟨[sampleUser], [], [samplePayment], [sampleExpense]⟩

/-! ## Theorems -/

theorem tsLtb_iff (a b : Timestamp) : tsLtb a b = true ↔ a < b := by
  simp [tsLtb, String.instLT]

theorem mem_rowsWithId {r : DenormRow} {i : Nat} {rows : List DenormRow} :
    r ∈ rowsWithId i rows ↔ r ∈ rows ∧ r.expense_id = i := by
  simp [rowsWithId]

theorem rowsWithId_eq_nil_of_not_mem {i : Nat} {rows : List DenormRow}
    (h : i ∉ rows.map fun r => r.expense_id) : rowsWithId i rows = [] := by
  refine List.filter_eq_nil_iff.mpr ?_
  intro r hr
  simp only [beq_iff_eq]
  intro hid
  exact h (List.mem_map.mpr ⟨r, hr, hid⟩)

theorem foldl_upsert_ops (L : List DenormRow) (r : ReportingDB) :
    (L.map TargetOp.upsert).foldl applyOp r =
      { r with denormalized_expenses := applyUpserts L r.denormalized_expenses } := by
  induction L generalizing r with
  | nil => simp [applyUpserts]
  | cons d L ih =>
      simp only [List.map_cons, List.foldl_cons, applyOp, applyUpserts, List.foldl_cons]
      rw [ih]
      simp [applyUpserts]

/-- `update_reporting_db` in closed form: apply the upserts, then the batch
delete, then set the watermark to the captured time. -/
theorem update_reporting_db_eq (s : SourceDB) (r : ReportingDB) (now : Timestamp) :
    update_reporting_db s r now =
      { denormalized_expenses :=
          deleteRows (deletedIds s r.last_sync_time)
            (applyUpserts (changedSet s r.last_sync_time) r.denormalized_expenses),
        last_sync_time := now } := by
  unfold update_reporting_db syncOps
  rw [List.foldl_append, foldl_upsert_ops]
  rfl

theorem filter_map_upsert_ne (d : DenormRow) (rows : List DenormRow) (i : Nat)
    (h : i ≠ d.expense_id) :
    (rows.map fun r => if r.expense_id == d.expense_id then d else r).filter
        (fun r => r.expense_id == i)
      = rows.filter (fun r => r.expense_id == i) := by
  induction rows with
  | nil => rfl
  | cons r rows ih =>
      rw [List.map_cons, List.filter_cons, List.filter_cons]
      by_cases hrd : r.expense_id = d.expense_id
      · have h1 : (if r.expense_id == d.expense_id then d else r) = d := by simp [hrd]
        have h2 : (d.expense_id == i) = false := by
          simp only [beq_eq_false_iff_ne, ne_eq]
          exact fun hc => h hc.symm
        have h3 : (r.expense_id == i) = false := by
          simp only [beq_eq_false_iff_ne, ne_eq, hrd]
          exact fun hc => h hc.symm
        rw [h1, h2, h3]
        simpa using ih
      · have h1 : (if r.expense_id == d.expense_id then d else r) = r := by simp [hrd]
        rw [h1, ih]

theorem filter_map_upsert (d : DenormRow) (rows : List DenormRow) :
    (rows.map fun r => if r.expense_id == d.expense_id then d else r).filter
        (fun r => r.expense_id == d.expense_id)
      = List.replicate (rowsWithId d.expense_id rows).length d := by
  induction rows with
  | nil => rfl
  | cons r rows ih =>
      rw [List.map_cons, List.filter_cons]
      by_cases hrd : r.expense_id = d.expense_id
      · have h1 : (if r.expense_id == d.expense_id then d else r) = d := by simp [hrd]
        rw [h1]
        simp only [beq_self_eq_true, if_true]
        rw [ih]
        have h2 : rowsWithId d.expense_id (r :: rows) = r :: rowsWithId d.expense_id rows := by
          simp [rowsWithId, List.filter_cons, hrd]
        rw [h2, List.length_cons, List.replicate_succ]
      · have h1 : (if r.expense_id == d.expense_id then d else r) = r := by simp [hrd]
        have h2 : (r.expense_id == d.expense_id) = false := by simp [hrd]
        rw [h1, h2]
        rw [if_neg (by simp)]
        rw [ih]
        have h3 : rowsWithId d.expense_id (r :: rows) = rowsWithId d.expense_id rows := by
          simp [rowsWithId, List.filter_cons, h2]
        rw [h3]

theorem length_rowsWithId_le_one {i : Nat} {rows : List DenormRow}
    (h : DenormPKUnique rows) : (rowsWithId i rows).length ≤ 1 := by
  induction rows with
  | nil => simp [rowsWithId]
  | cons r rows ih =>
      have h' : DenormPKUnique rows := (List.nodup_cons.mp h).2
      have hnot : r.expense_id ∉ rows.map fun d => d.expense_id := (List.nodup_cons.mp h).1
      unfold rowsWithId at *
      rw [List.filter_cons]
      by_cases hri : r.expense_id = i
      · have hnil : rows.filter (fun d => d.expense_id == i) = [] := by
          have := @rowsWithId_eq_nil_of_not_mem i rows (by rwa [hri] at hnot)
          simpa [rowsWithId] using this
        simp [hri, hnil]
      · rw [if_neg (by simp [hri])]
        exact ih h'

theorem rowsWithId_upsert_ne (d : DenormRow) (rows : List DenormRow) {i : Nat}
    (h : i ≠ d.expense_id) :
    rowsWithId i (upsertRows d rows) = rowsWithId i rows := by
  unfold upsertRows
  by_cases hany : (rows.any fun r => r.expense_id == d.expense_id) = true
  · rw [if_pos hany]
    exact filter_map_upsert_ne d rows i h
  · rw [if_neg hany]
    unfold rowsWithId
    rw [List.filter_append]
    have h2 : (d.expense_id == i) = false := by
      simp only [beq_eq_false_iff_ne, ne_eq]
      exact fun hc => h hc.symm
    simp [h2]

theorem rowsWithId_upsert_self (d : DenormRow) (rows : List DenormRow)
    (h : DenormPKUnique rows) :
    rowsWithId d.expense_id (upsertRows d rows) = [d] := by
  unfold upsertRows
  by_cases hany : (rows.any fun r => r.expense_id == d.expense_id) = true
  · rw [if_pos hany]
    have hlen : (rowsWithId d.expense_id rows).length = 1 := by
      have hle := @length_rowsWithId_le_one d.expense_id rows h
      obtain ⟨r0, hr0mem, hr0id⟩ : ∃ r0, r0 ∈ rows ∧ r0.expense_id = d.expense_id := by
        simpa using List.any_eq_true.mp hany
      have hmem : r0 ∈ rowsWithId d.expense_id rows := mem_rowsWithId.mpr ⟨hr0mem, hr0id⟩
      have hpos : 0 < (rowsWithId d.expense_id rows).length :=
        List.length_pos.mpr (List.ne_nil_of_mem hmem)
      omega
    have hfm := filter_map_upsert d rows
    rw [hlen] at hfm
    rw [show rowsWithId d.expense_id (List.map (fun r => if r.expense_id == d.expense_id then d else r) rows) = (rows.map fun r => if r.expense_id == d.expense_id then d else r).filter (fun r => r.expense_id == d.expense_id) from rfl, hfm]
    rfl
  · rw [if_neg hany]
    have hnil : rowsWithId d.expense_id rows = [] := by
      refine rowsWithId_eq_nil_of_not_mem ?_
      intro hc
      obtain ⟨r0, hr0mem, hr0id⟩ := List.mem_map.mp hc
      exact hany (List.any_eq_true.mpr ⟨r0, hr0mem, by simp [hr0id]⟩)
    unfold rowsWithId at hnil ⊢
    rw [List.filter_append, hnil]
    simp

theorem upsertRows_pk (d : DenormRow) (rows : List DenormRow)
    (h : DenormPKUnique rows) : DenormPKUnique (upsertRows d rows) := by
  unfold upsertRows
  by_cases hany : (rows.any fun r => r.expense_id == d.expense_id) = true
  · rw [if_pos hany]
    have : ((rows.map fun r => if r.expense_id == d.expense_id then d else r).map
        fun x => x.expense_id) = rows.map fun r => r.expense_id := by
      rw [List.map_map]
      refine List.map_congr_left ?_
      intro r _
      by_cases hrd : r.expense_id = d.expense_id
      · simp [Function.comp, hrd]
      · simp [Function.comp, hrd]
    unfold DenormPKUnique
    rw [this]
    exact h
  · rw [if_neg hany]
    unfold DenormPKUnique
    rw [List.map_append]
    simp only [List.map_cons, List.map_nil]
    refine List.Nodup.append h (List.nodup_singleton _) ?_
    intro x hx hy
    simp only [List.mem_singleton] at hy
    subst hy
    obtain ⟨r0, hr0mem, hr0id⟩ := List.mem_map.mp hx
    exact hany (List.any_eq_true.mpr ⟨r0, hr0mem, by simp [hr0id]⟩)

theorem deleteRows_pk (ids : List Nat) (rows : List DenormRow)
    (h : DenormPKUnique rows) : DenormPKUnique (deleteRows ids rows) := by
  unfold deleteRows
  by_cases hemp : ids.isEmpty
  · rwa [if_pos hemp]
  · rw [if_neg hemp]
    unfold DenormPKUnique at *
    exact ((List.filter_sublist rows).map _).nodup h

theorem rowsWithId_deleteRows (ids : List Nat) (rows : List DenormRow) (i : Nat) :
    rowsWithId i (deleteRows ids rows) =
      if ids.contains i then [] else rowsWithId i rows := by
  unfold deleteRows
  by_cases hemp : ids.isEmpty
  · rw [if_pos hemp]
    have : ids = [] := List.isEmpty_iff.mp hemp
    subst this
    simp
  · rw [if_neg hemp]
    unfold rowsWithId
    rw [List.filter_filter]
    by_cases hc : ids.contains i
    · rw [if_pos hc]
      refine List.filter_eq_nil_iff.mpr ?_
      intro r _
      by_cases hri : r.expense_id = i
      · simp only [hri, beq_self_eq_true, Bool.true_and, Bool.not_eq_true',
          Bool.not_eq_true]
        simpa using List.mem_of_elem_eq_true hc
      · simp [hri]
    · rw [if_neg hc]
      refine List.filter_congr ?_
      intro r _
      by_cases hri : r.expense_id = i
      · rw [hri]
        simp only [beq_self_eq_true, Bool.true_and]
        have : ¬ i ∈ ids := fun hm => hc (List.elem_eq_true_of_mem hm)
        simpa using this
      · simp [hri]

theorem applyUpserts_nil (rows : List DenormRow) : applyUpserts [] rows = rows := rfl

theorem applyUpserts_cons (d : DenormRow) (L : List DenormRow)
    (rows : List DenormRow) :
    applyUpserts (d :: L) rows = applyUpserts L (upsertRows d rows) := rfl

theorem applyUpserts_pk (L : List DenormRow) (rows : List DenormRow)
    (h : DenormPKUnique rows) : DenormPKUnique (applyUpserts L rows) := by
  induction L generalizing rows with
  | nil => exact h
  | cons d L ih =>
      rw [applyUpserts_cons]
      exact ih _ (upsertRows_pk d rows h)

theorem rowsWithId_applyUpserts_not_mem (L : List DenormRow)
    (rows : List DenormRow) {i : Nat} (h : i ∉ L.map fun d => d.expense_id) :
    rowsWithId i (applyUpserts L rows) = rowsWithId i rows := by
  induction L generalizing rows with
  | nil => rfl
  | cons d L ih =>
      rw [applyUpserts_cons]
      have hne : i ≠ d.expense_id := by
        intro hc
        exact h (by simp [hc])
      have hL : i ∉ L.map fun d => d.expense_id := by
        intro hc
        exact h (by simp [hc])
      rw [ih _ hL, rowsWithId_upsert_ne d rows hne]

theorem rowsWithId_applyUpserts_mem (L : List DenormRow)
    (rows : List DenormRow) {d : DenormRow}
    (hL : (L.map fun x => x.expense_id).Nodup)
    (h : DenormPKUnique rows) (hd : d ∈ L) :
    rowsWithId d.expense_id (applyUpserts L rows) = [d] := by
  induction L generalizing rows with
  | nil => cases hd
  | cons d' L ih =>
      rw [applyUpserts_cons]
      rcases List.mem_cons.mp hd with hdd | hdL
      · subst hdd
        have hnot : d.expense_id ∉ L.map fun x => x.expense_id :=
          (List.nodup_cons.mp hL).1
        rw [rowsWithId_applyUpserts_not_mem L _ hnot]
        exact rowsWithId_upsert_self d rows h
      · exact ih _ (List.nodup_cons.mp hL).2 (upsertRows_pk d' rows h) hdL

theorem upsertRows_id_of_present (d : DenormRow) (rows : List DenormRow)
    (h : rowsWithId d.expense_id rows = [d]) : upsertRows d rows = rows := by
  have hmem : d ∈ rows := by
    have : d ∈ rowsWithId d.expense_id rows := by rw [h]; simp
    exact (mem_rowsWithId.mp this).1
  have hany : (rows.any fun r => r.expense_id == d.expense_id) = true :=
    List.any_eq_true.mpr ⟨d, hmem, by simp⟩
  unfold upsertRows
  rw [if_pos hany]
  have : ∀ r ∈ rows, (if r.expense_id == d.expense_id then d else r) = r := by
    intro r hr
    by_cases hrd : r.expense_id = d.expense_id
    · have : r ∈ rowsWithId d.expense_id rows := mem_rowsWithId.mpr ⟨hr, hrd⟩
      rw [h] at this
      simp only [List.mem_singleton] at this
      simp [hrd, this]
    · simp [hrd]
  rw [List.map_congr_left this]
  simp

theorem applyUpserts_id_of_present (L : List DenormRow) (rows : List DenormRow)
    (h : ∀ d ∈ L, rowsWithId d.expense_id rows = [d]) :
    applyUpserts L rows = rows := by
  induction L with
  | nil => rfl
  | cons d L ih =>
      rw [applyUpserts_cons, upsertRows_id_of_present d rows (h d (by simp))]
      exact ih fun d' hd' => h d' (by simp [hd'])

theorem deleteRows_id_of_absent (ids : List Nat) (rows : List DenormRow)
    (h : ∀ i ∈ ids, rowsWithId i rows = []) : deleteRows ids rows = rows := by
  unfold deleteRows
  by_cases hemp : ids.isEmpty
  · rw [if_pos hemp]
  · rw [if_neg hemp]
    refine List.filter_eq_self.mpr ?_
    intro r hr
    simp only [Bool.not_eq_eq_eq_not, Bool.not_true, Bool.not_eq_true']
    by_cases hc : ids.contains r.expense_id
    · have hmem : r.expense_id ∈ ids := List.mem_of_elem_eq_true hc
      have := h r.expense_id hmem
      have hrin : r ∈ rowsWithId r.expense_id rows := mem_rowsWithId.mpr ⟨hr, rfl⟩
      rw [this] at hrin
      cases hrin
    · simpa using hc

/-! ## Lemmas about the two change queries -/

theorem joinDims_expense_id {s : SourceDB} {e : ExpenseRow} {d : DenormRow}
    (h : joinDims s e = some d) : d.expense_id = e.expense_id := by
  unfold joinDims at h
  rcases hu : s.users.find? (fun u => u.user_id == e.user_id) with _ | u <;>
    rcases hc : s.categories.find? (fun c => c.category_id == e.category_id) with _ | c <;>
    rcases hp : s.payment_methods.find?
        (fun p => p.payment_method_id == e.payment_method_id) with _ | p <;>
    rw [hu, hc, hp] at h <;> simp at h
  rw [← h]
  rfl

theorem changedPred_iff (w : Timestamp) (e : ExpenseRow) :
    changedPred w e = true ↔ w < e.updated_at ∧ e.is_deleted = false := by
  unfold changedPred
  rw [Bool.and_eq_true, tsLtb_iff]
  simp

theorem deletedPred_iff (w : Timestamp) (e : ExpenseRow) :
    deletedPred w e = true ↔ w < e.updated_at ∧ e.is_deleted = true := by
  unfold deletedPred
  rw [Bool.and_eq_true, tsLtb_iff]

theorem mem_changedSet {s : SourceDB} {w : Timestamp} {d : DenormRow} :
    d ∈ changedSet s w ↔
      ∃ e, e ∈ s.expenses ∧ e.is_deleted = false ∧ w < e.updated_at ∧
        joinDims s e = some d := by
  unfold changedSet changedSources
  rw [List.mem_filterMap]
  constructor
  · rintro ⟨e, he, hj⟩
    obtain ⟨hmem, hpred⟩ := List.mem_filter.mp he
    obtain ⟨hlt, hdel⟩ := (changedPred_iff w e).mp hpred
    exact ⟨e, hmem, hdel, hlt, hj⟩
  · rintro ⟨e, hmem, hdel, hlt, hj⟩
    exact ⟨e, List.mem_filter.mpr ⟨hmem, (changedPred_iff w e).mpr ⟨hlt, hdel⟩⟩, hj⟩

theorem mem_deletedIds {s : SourceDB} {w : Timestamp} {i : Nat} :
    i ∈ deletedIds s w ↔
      ∃ e, e ∈ s.expenses ∧ e.is_deleted = true ∧ w < e.updated_at ∧
        e.expense_id = i := by
  unfold deletedIds
  rw [List.mem_map]
  constructor
  · rintro ⟨e, he, hid⟩
    obtain ⟨hmem, hpred⟩ := List.mem_filter.mp he
    obtain ⟨hlt, hdel⟩ := (deletedPred_iff w e).mp hpred
    exact ⟨e, hmem, hdel, hlt, hid⟩
  · rintro ⟨e, hmem, hdel, hlt, hid⟩
    exact ⟨e, List.mem_filter.mpr ⟨hmem, (deletedPred_iff w e).mpr ⟨hlt, hdel⟩⟩, hid⟩

theorem changedSet_map_id_sublist (s : SourceDB) (w : Timestamp) :
    ((changedSet s w).map fun d => d.expense_id).Sublist
      (s.expenses.map fun e => e.expense_id) := by
  unfold changedSet changedSources
  generalize s.expenses = l
  induction l with
  | nil => simp
  | cons e l ih =>
      rw [List.filter_cons]
      by_cases hpred : changedPred w e = true
      · rw [if_pos hpred, List.filterMap_cons]
        rcases hj : joinDims s e with _ | d
        · simpa using ih.cons _
        · rw [List.map_cons, List.map_cons]
          have := joinDims_expense_id hj
          rw [this]
          exact ih.cons₂ _
      · rw [if_neg hpred]
        simpa using ih.cons _

theorem changedSet_pk {s : SourceDB} (w : Timestamp) (h : ExpensePKUnique s) :
    ((changedSet s w).map fun d => d.expense_id).Nodup :=
  (changedSet_map_id_sublist s w).nodup h

theorem expense_eq_of_pk {s : SourceDB} {e e' : ExpenseRow}
    (h : ExpensePKUnique s) (he : e ∈ s.expenses) (he' : e' ∈ s.expenses)
    (hid : e.expense_id = e'.expense_id) : e = e' :=
  List.inj_on_of_nodup_map h he he' hid

/-! ## Per-id characterization of one sync pass -/

theorem update_reporting_db_rows (s : SourceDB) (r : ReportingDB) (now : Timestamp) :
    (update_reporting_db s r now).denormalized_expenses =
      deleteRows (deletedIds s r.last_sync_time)
        (applyUpserts (changedSet s r.last_sync_time) r.denormalized_expenses) := by
  rw [update_reporting_db_eq]

theorem update_reporting_db_watermark (s : SourceDB) (r : ReportingDB)
    (now : Timestamp) : (update_reporting_db s r now).last_sync_time = now := by
  rw [update_reporting_db_eq]

theorem run_rowsWithId_deleted (s : SourceDB) (r : ReportingDB) (now : Timestamp)
    {i : Nat} (h : i ∈ deletedIds s r.last_sync_time) :
    rowsWithId i (update_reporting_db s r now).denormalized_expenses = [] := by
  rw [update_reporting_db_rows, rowsWithId_deleteRows]
  rw [if_pos (List.elem_eq_true_of_mem h)]

theorem run_rowsWithId_changed (s : SourceDB) (r : ReportingDB) (now : Timestamp)
    {d : DenormRow} (hs : ExpensePKUnique s)
    (hr : DenormPKUnique r.denormalized_expenses)
    (hd : d ∈ changedSet s r.last_sync_time)
    (hnd : d.expense_id ∉ deletedIds s r.last_sync_time) :
    rowsWithId d.expense_id (update_reporting_db s r now).denormalized_expenses
      = [d] := by
  rw [update_reporting_db_rows, rowsWithId_deleteRows]
  rw [if_neg (fun hc => hnd (List.mem_of_elem_eq_true hc))]
  exact rowsWithId_applyUpserts_mem _ _ (changedSet_pk _ hs) hr hd

theorem run_rowsWithId_frame (s : SourceDB) (r : ReportingDB) (now : Timestamp)
    {i : Nat} (hc : i ∉ (changedSet s r.last_sync_time).map fun d => d.expense_id)
    (hdel : i ∉ deletedIds s r.last_sync_time) :
    rowsWithId i (update_reporting_db s r now).denormalized_expenses
      = rowsWithId i r.denormalized_expenses := by
  rw [update_reporting_db_rows, rowsWithId_deleteRows]
  rw [if_neg (fun hx => hdel (List.mem_of_elem_eq_true hx))]
  exact rowsWithId_applyUpserts_not_mem _ _ hc

theorem run_pk (s : SourceDB) (r : ReportingDB) (now : Timestamp)
    (hr : DenormPKUnique r.denormalized_expenses) :
    DenormPKUnique (update_reporting_db s r now).denormalized_expenses := by
  rw [update_reporting_db_rows]
  exact deleteRows_pk _ _ (applyUpserts_pk _ _ hr)

theorem changedSet_anti {s : SourceDB} {w w' : Timestamp} {d : DenormRow}
    (hw : w ≤ w') (h : d ∈ changedSet s w') : d ∈ changedSet s w := by
  obtain ⟨e, hmem, hdel, hlt, hj⟩ := mem_changedSet.mp h
  exact mem_changedSet.mpr ⟨e, hmem, hdel, lt_of_le_of_lt hw hlt, hj⟩

theorem deletedIds_anti {s : SourceDB} {w w' : Timestamp} {i : Nat}
    (hw : w ≤ w') (h : i ∈ deletedIds s w') : i ∈ deletedIds s w := by
  obtain ⟨e, hmem, hdel, hlt, hid⟩ := mem_deletedIds.mp h
  exact mem_deletedIds.mpr ⟨e, hmem, hdel, lt_of_le_of_lt hw hlt, hid⟩

theorem not_mem_deletedIds_of_live {s : SourceDB} {w : Timestamp} {e : ExpenseRow}
    (hs : ExpensePKUnique s) (he : e ∈ s.expenses) (hdel : e.is_deleted = false) :
    e.expense_id ∉ deletedIds s w := by
  intro hmem
  obtain ⟨e', he', hdel', _, hid'⟩ := mem_deletedIds.mp hmem
  have : e' = e := expense_eq_of_pk hs he' he hid'
  subst this
  rw [hdel] at hdel'
  cases hdel'

/-! ## The claims -/

/-- C1.  Completeness of one sync pass: a source expense that is not
soft-deleted, has `updated_at` strictly above the watermark read at the
start of the run, and whose user, category and payment-method dimension
rows exist, ends up — after a successful `update_reporting_db` run — with
exactly one `denormalized_expenses` row carrying its `expense_id`, equal to
the joined source record (`rowOf e u c p` copies username, category_name,
payment_method_name, amount, expense_date, description, tag, created_at and
updated_at from the join). -/
theorem sync_pass_completeness (s : SourceDB) (r : ReportingDB) (now : Timestamp)
    (e : ExpenseRow) (u : UserRow) (c : CategoryRow) (p : PaymentMethodRow)
    (hs : ExpensePKUnique s) (hr : DenormPKUnique r.denormalized_expenses)
    (he : e ∈ s.expenses) (hdel : e.is_deleted = false)
    (hlt : r.last_sync_time < e.updated_at)
    (hu : s.users.find? (fun x => x.user_id == e.user_id) = some u)
    (hc : s.categories.find? (fun x => x.category_id == e.category_id) = some c)
    (hp : s.payment_methods.find?
        (fun x => x.payment_method_id == e.payment_method_id) = some p) :
    rowsWithId e.expense_id
      (update_reporting_db s r now).denormalized_expenses = [rowOf e u c p] := by
  have hj : joinDims s e = some (rowOf e u c p) := by
    unfold joinDims
    rw [hu, hc, hp]
  have hd : rowOf e u c p ∈ changedSet s r.last_sync_time :=
    mem_changedSet.mpr ⟨e, he, hdel, hlt, hj⟩
  have hid : (rowOf e u c p).expense_id = e.expense_id := rfl
  have hnd : (rowOf e u c p).expense_id ∉ deletedIds s r.last_sync_time := by
    rw [hid]
    exact not_mem_deletedIds_of_live hs he hdel
  rw [← hid]
  exact run_rowsWithId_changed s r now hs hr hd hnd

/-- C3.  Delete wins over update: the batch delete is issued strictly after
the upsert loop (`syncOps` lists the upserts first, then the delete, then
the watermark write), so an expense soft-deleted with `updated_at` above
the watermark has no `denormalized_expenses` row after the pass, whatever
the upsert loop did with it. -/
theorem delete_wins_over_update (s : SourceDB) (r : ReportingDB) (now : Timestamp)
    (e : ExpenseRow) (he : e ∈ s.expenses) (hdel : e.is_deleted = true)
    (hlt : r.last_sync_time < e.updated_at) :
    syncOps s r.last_sync_time now
      = (changedSet s r.last_sync_time).map TargetOp.upsert
        ++ [TargetOp.deleteBatch (deletedIds s r.last_sync_time),
            TargetOp.setWatermark now] ∧
    rowsWithId e.expense_id
      (update_reporting_db s r now).denormalized_expenses = [] := by
  refine ⟨rfl, ?_⟩
  exact run_rowsWithId_deleted s r now
    (mem_deletedIds.mpr ⟨e, he, hdel, hlt, rfl⟩)

/-- C10.  Frame property of one sync pass: a reporting row whose
`expense_id` is in neither the changed set nor the deleted set of the run
is untouched — the rows carrying that id are the same, in content and
multiplicity, after the run as before. -/
theorem sync_pass_frame (s : SourceDB) (r : ReportingDB) (now : Timestamp)
    (i : Nat)
    (hc : i ∉ (changedSet s r.last_sync_time).map fun d => d.expense_id)
    (hdel : i ∉ deletedIds s r.last_sync_time) :
    rowsWithId i (update_reporting_db s r now).denormalized_expenses
      = rowsWithId i r.denormalized_expenses :=
  run_rowsWithId_frame s r now hc hdel

/-- C8.  The watermark written by a successful run is exactly the
`current_time` value captured at the start of the run — line 134, after the
watermark read and before the changed-set query is issued — independent of
the source contents; it is written by the final `setWatermark` statement of
the pass. -/
theorem watermark_is_start_time (s : SourceDB) (r : ReportingDB) (now : Timestamp) :
    (update_reporting_db s r now).last_sync_time = now ∧
    (syncOps s r.last_sync_time now).getLast? = some (TargetOp.setWatermark now) := by
  refine ⟨update_reporting_db_watermark s r now, ?_⟩
  unfold syncOps
  rw [List.getLast?_append]
  rfl

/-- C5.  Atomicity on failure: all reporting-store writes of a pass happen
inside one transaction.  A run aborted after any number `k` of its write
statements, before `reporting_conn.commit()`, leaves the durable reporting
store (rows and watermark) exactly as before the run; and committing the
full buffered transaction yields exactly the successful-run state. -/
theorem abort_before_commit_is_noop (s : SourceDB) (r : ReportingDB)
    (now : Timestamp) :
    (∀ k : Nat, abortedRun s r now k = r) ∧
    txCommit ((syncOps s r.last_sync_time now).foldl txExec ⟨r, []⟩)
      = update_reporting_db s r now := by
  have hcommitted : ∀ (ops : List TargetOp) (st : TxState),
      (ops.foldl txExec st).committed = st.committed := by
    intro ops
    induction ops with
    | nil => intro st; rfl
    | cons op ops ih => intro st; rw [List.foldl_cons]; exact ih _
  have hpending : ∀ (ops : List TargetOp) (st : TxState),
      (ops.foldl txExec st).pending = st.pending ++ ops := by
    intro ops
    induction ops with
    | nil => intro st; simp
    | cons op ops ih =>
        intro st
        rw [List.foldl_cons, ih]
        simp [txExec]
  constructor
  · intro k
    unfold abortedRun
    exact hcommitted _ _
  · unfold txCommit
    rw [hcommitted, hpending]
    simp only [List.nil_append]
    rfl

theorem tsLtb_irrefl (w : Timestamp) : tsLtb w w = false := by
  rw [← Bool.not_eq_true, tsLtb_iff]
  exact lt_irrefl w

/-- C7.  The two change queries select by `is_deleted` and by the exclusive
lower bound `updated_at > watermark`: membership in the changed set and the
deleted set is characterized exactly by those predicates, a row with
`updated_at = watermark` satisfies neither, and such a row is not
re-applied to the reporting store by the run. -/
theorem change_queries_exclusive_bound (s : SourceDB) (w : Timestamp) :
    (∀ d, d ∈ changedSet s w ↔ ∃ e, e ∈ s.expenses ∧ e.is_deleted = false ∧
        w < e.updated_at ∧ joinDims s e = some d) ∧
    (∀ i, i ∈ deletedIds s w ↔ ∃ e, e ∈ s.expenses ∧ e.is_deleted = true ∧
        w < e.updated_at ∧ e.expense_id = i) ∧
    (∀ e, e ∈ s.expenses → e.updated_at = w →
      changedPred w e = false ∧ deletedPred w e = false) ∧
    (∀ (r : ReportingDB) (now : Timestamp) (e : ExpenseRow),
      ExpensePKUnique s → r.last_sync_time = w → e ∈ s.expenses →
      e.updated_at = w →
      rowsWithId e.expense_id (update_reporting_db s r now).denormalized_expenses
        = rowsWithId e.expense_id r.denormalized_expenses) := by
  refine ⟨fun d => mem_changedSet, fun i => mem_deletedIds, ?_, ?_⟩
  · intro e _ hwe
    unfold changedPred deletedPred
    rw [← hwe, tsLtb_irrefl]
    simp
  · intro r now e hs hrw he hwe
    refine run_rowsWithId_frame s r now ?_ ?_
    · intro hmem
      obtain ⟨d, hd, hdid⟩ := List.mem_map.mp hmem
      rw [hrw] at hd
      obtain ⟨e', he', _, hlt', hj'⟩ := mem_changedSet.mp hd
      have hide : e'.expense_id = e.expense_id := by
        rw [← joinDims_expense_id hj', hdid]
      have : e' = e := expense_eq_of_pk hs he' he hide
      subst this
      rw [hwe] at hlt'
      exact lt_irrefl w hlt'
    · intro hmem
      rw [hrw] at hmem
      obtain ⟨e', he', _, hlt', hid'⟩ := mem_deletedIds.mp hmem
      have : e' = e := expense_eq_of_pk hs he' he hid'
      subst this
      rw [hwe] at hlt'
      exact lt_irrefl w hlt'

/-- Witness for C7 at a concrete store: the deleted-set characterization
instantiated on a one-row table. -/
theorem change_queries_exclusive_bound_witness :
    (7 : Nat) ∈ deletedIds
      ⟨[], [], [], [⟨7, 1, 1, 1, 500, "2024-01-01 00:00:00", none, "food",
        true, "2024-01-01 00:00:00", "2024-01-02 00:00:00"⟩]⟩
      "2024-01-01 00:00:00" :=
  ((change_queries_exclusive_bound
      ⟨[], [], [], [⟨7, 1, 1, 1, 500, "2024-01-01 00:00:00", none, "food",
        true, "2024-01-01 00:00:00", "2024-01-02 00:00:00"⟩]⟩
      "2024-01-01 00:00:00").2.1 7).mpr
    ⟨⟨7, 1, 1, 1, 500, "2024-01-01 00:00:00", none, "food",
        true, "2024-01-01 00:00:00", "2024-01-02 00:00:00"⟩,
      by decide, rfl, (tsLtb_iff _ _).mp (by decide), rfl⟩

/-- C4.  Watermark monotonicity and single mutation per run: with
non-decreasing clock readings, the watermark after a second run is at least
the watermark after the first; and every run issues exactly one watermark
write, as the last statement of the pass. -/
theorem watermark_monotone_single_write (s1 s2 : SourceDB) (r : ReportingDB)
    (t1 t2 : Timestamp) (h : t1 ≤ t2) :
    (update_reporting_db s1 r t1).last_sync_time ≤
      (update_reporting_db s2 (update_reporting_db s1 r t1) t2).last_sync_time ∧
    (∀ (s : SourceDB) (w now : Timestamp),
      (syncOps s w now).countP isWatermarkWrite = 1 ∧
      (syncOps s w now).getLast? = some (TargetOp.setWatermark now)) := by
  constructor
  · rw [update_reporting_db_watermark, update_reporting_db_watermark]
    exact h
  · intro s w now
    constructor
    · unfold syncOps
      rw [List.countP_append]
      have h0 : ((changedSet s w).map TargetOp.upsert).countP isWatermarkWrite
          = 0 := by
        rw [List.countP_eq_zero]
        intro op hop
        obtain ⟨d, _, rfl⟩ := List.mem_map.mp hop
        simp [isWatermarkWrite]
      rw [h0]
      rfl
    · unfold syncOps
      rw [List.getLast?_append]
      rfl

/-- Witness for C4 with equal clock readings. -/
theorem watermark_monotone_single_write_witness :
    (update_reporting_db ⟨[], [], [], []⟩ init_reporting_db
        "2024-01-01 00:00:00").last_sync_time ≤
      (update_reporting_db ⟨[], [], [], []⟩
        (update_reporting_db ⟨[], [], [], []⟩ init_reporting_db
          "2024-01-01 00:00:00")
        "2024-01-01 00:00:00").last_sync_time :=
  (watermark_monotone_single_write ⟨[], [], [], []⟩ ⟨[], [], [], []⟩
    init_reporting_db "2024-01-01 00:00:00" "2024-01-01 00:00:00"
    (le_refl "2024-01-01 00:00:00")).1

/-- Witness for C1 on the one-expense fixture store. -/
theorem sync_pass_completeness_witness :
    rowsWithId 7 (update_reporting_db sampleSource init_reporting_db
        "2024-06-01 00:00:00").denormalized_expenses
      = [rowOf sampleExpense sampleUser sampleCategory samplePayment] :=
  sync_pass_completeness sampleSource init_reporting_db "2024-06-01 00:00:00"
    sampleExpense sampleUser sampleCategory samplePayment
    (by decide) (by decide) (by decide) rfl
    ((tsLtb_iff _ _).mp (by decide)) (by decide) (by decide) (by decide)

/-- Witness for C3: a soft-deleted expense, updated inside the window, is
absent after the pass. -/
theorem delete_wins_over_update_witness :
    rowsWithId 7 (update_reporting_db softDeletedSource
        ⟨[rowOf sampleExpense sampleUser sampleCategory samplePayment],
          "1970-01-01 00:00:00"⟩
        "2024-06-01 00:00:00").denormalized_expenses = [] :=
  (delete_wins_over_update softDeletedSource
    ⟨[rowOf sampleExpense sampleUser sampleCategory samplePayment],
      "1970-01-01 00:00:00"⟩
    "2024-06-01 00:00:00" { sampleExpense with is_deleted := true }
    (by decide) (by decide) ((tsLtb_iff _ _).mp (by decide))).2

/-- Witness for C10: an id in neither query result keeps its rows. -/
theorem sync_pass_frame_witness :
    rowsWithId 99 (update_reporting_db sampleSource
        ⟨[{ rowOf sampleExpense sampleUser sampleCategory samplePayment with
            expense_id := 99 }], "1970-01-01 00:00:00"⟩
        "2024-06-01 00:00:00").denormalized_expenses
      = rowsWithId 99
          [{ rowOf sampleExpense sampleUser sampleCategory samplePayment with
            expense_id := 99 }] :=
  sync_pass_frame sampleSource
    ⟨[{ rowOf sampleExpense sampleUser sampleCategory samplePayment with
        expense_id := 99 }], "1970-01-01 00:00:00"⟩
    "2024-06-01 00:00:00" 99 (by decide) (by decide)

/-- C2, counterexample to the claim as stated: re-running with an unchanged
(here: empty) source is not a no-op on the target state, because the second
run overwrites the watermark with its own clock reading. -/
theorem rerun_counterexample :
    update_reporting_db ⟨[], [], [], []⟩
        (update_reporting_db ⟨[], [], [], []⟩ init_reporting_db
          "2024-01-01 00:00:00")
        "2024-01-02 00:00:00"
      ≠ update_reporting_db ⟨[], [], [], []⟩ init_reporting_db
          "2024-01-01 00:00:00" := by decide

/-- C2, amended.  Re-running `update_reporting_db` with no intervening
source change leaves the `denormalized_expenses` content identical, but the
watermark becomes the second run's captured clock time `t2` (not the first
run's `t1`): the second run is a content no-op only.  Requires the first
run's clock reading to be at or after the stored watermark. -/
theorem second_run_is_content_noop (s : SourceDB) (r : ReportingDB)
    (t1 t2 : Timestamp) (hs : ExpensePKUnique s)
    (hr : DenormPKUnique r.denormalized_expenses)
    (hw : r.last_sync_time ≤ t1) :
    (update_reporting_db s (update_reporting_db s r t1) t2).denormalized_expenses
      = (update_reporting_db s r t1).denormalized_expenses ∧
    (update_reporting_db s (update_reporting_db s r t1) t2).last_sync_time
      = t2 := by
  refine ⟨?_, update_reporting_db_watermark _ _ _⟩
  have hw1 : (update_reporting_db s r t1).last_sync_time = t1 :=
    update_reporting_db_watermark s r t1
  rw [update_reporting_db_rows, hw1]
  have hups : applyUpserts (changedSet s t1)
      (update_reporting_db s r t1).denormalized_expenses
      = (update_reporting_db s r t1).denormalized_expenses := by
    apply applyUpserts_id_of_present
    intro d hd
    have hd0 : d ∈ changedSet s r.last_sync_time := changedSet_anti hw hd
    obtain ⟨e, he, hedel, _, hj⟩ := mem_changedSet.mp hd
    have hnd : d.expense_id ∉ deletedIds s r.last_sync_time := by
      rw [joinDims_expense_id hj]
      exact not_mem_deletedIds_of_live hs he hedel
    exact run_rowsWithId_changed s r t1 hs hr hd0 hnd
  rw [hups]
  apply deleteRows_id_of_absent
  intro i hi
  exact run_rowsWithId_deleted s r t1 (deletedIds_anti hw hi)

/-- Witness for the amended C2 on the one-expense fixture store. -/
theorem second_run_is_content_noop_witness :
    (update_reporting_db sampleSource
        (update_reporting_db sampleSource init_reporting_db
          "2024-06-01 00:00:00")
        "2024-06-02 00:00:00").denormalized_expenses
      = (update_reporting_db sampleSource init_reporting_db
          "2024-06-01 00:00:00").denormalized_expenses ∧
    (update_reporting_db sampleSource
        (update_reporting_db sampleSource init_reporting_db
          "2024-06-01 00:00:00")
        "2024-06-02 00:00:00").last_sync_time = "2024-06-02 00:00:00" :=
  second_run_is_content_noop sampleSource init_reporting_db
    "2024-06-01 00:00:00" "2024-06-02 00:00:00" (by decide) (by decide)
    (le_of_lt ((tsLtb_iff _ _).mp (by decide)))

/-- C6, counterexample to the claim as stated: an expense inside the change
window whose dimension join dangles (no category row) does not fail the
pass — the pass completes, advances the watermark, and silently skips the
record (the inner join drops it). -/
theorem referential_failure_counterexample :
    changedPred init_reporting_db.last_sync_time sampleExpense = true ∧
    joinDims danglingSource sampleExpense = none ∧
    update_reporting_db danglingSource init_reporting_db "2024-06-01 00:00:00"
      = { denormalized_expenses := [],
          last_sync_time := "2024-06-01 00:00:00" } := by decide

/-- C6, amended.  A changed source expense with a dangling dimension
foreign key is silently dropped by the inner join of the changed-set query:
the pass completes normally (the watermark still advances to the captured
time) and the record is skipped — its id is touched neither by the upserts
nor by the batch delete. -/
theorem referential_failure_skips_record (s : SourceDB) (r : ReportingDB)
    (now : Timestamp) (e : ExpenseRow) (he : e ∈ s.expenses)
    (hdel : e.is_deleted = false) (hj : joinDims s e = none)
    (hu : ∀ e' ∈ s.expenses, e'.expense_id = e.expense_id → e' = e) :
    (update_reporting_db s r now).last_sync_time = now ∧
    rowsWithId e.expense_id (update_reporting_db s r now).denormalized_expenses
      = rowsWithId e.expense_id r.denormalized_expenses := by
  refine ⟨update_reporting_db_watermark _ _ _, ?_⟩
  refine run_rowsWithId_frame s r now ?_ ?_
  · intro hmem
    obtain ⟨d, hd, hdid⟩ := List.mem_map.mp hmem
    obtain ⟨e', he', _, _, hj'⟩ := mem_changedSet.mp hd
    have hide : e'.expense_id = e.expense_id := by
      rw [← joinDims_expense_id hj', hdid]
    have : e' = e := hu e' he' hide
    subst this
    rw [hj] at hj'
    cases hj'
  · intro hmem
    obtain ⟨e', he', hdel', _, hid'⟩ := mem_deletedIds.mp hmem
    have : e' = e := hu e' he' hid'
    subst this
    rw [hdel] at hdel'
    cases hdel'

/-- Witness for the amended C6 on the dangling-category fixture store. -/
theorem referential_failure_skips_record_witness :
    (update_reporting_db danglingSource init_reporting_db
        "2024-06-01 00:00:00").last_sync_time = "2024-06-01 00:00:00" ∧
    rowsWithId 7 (update_reporting_db danglingSource init_reporting_db
        "2024-06-01 00:00:00").denormalized_expenses
      = rowsWithId 7 init_reporting_db.denormalized_expenses :=
  referential_failure_skips_record danglingSource init_reporting_db
    "2024-06-01 00:00:00" sampleExpense (by decide) rfl (by decide)
    (by decide)

/-- C9, code bug.  The command layer's expense mutations do not refresh
`updated_at`: the soft delete executes `UPDATE expenses SET is_deleted = 1`
and the field update executes `UPDATE expenses SET {field} = ?`, neither
touching `updated_at` (SQLite's `DEFAULT CURRENT_TIMESTAMP` applies only at
INSERT).  Consequence at the failing input: an expense synced at watermark
`2024-06-01` and then soft-deleted never enters the deleted set, so the
sync pass leaves its stale row in the reporting store forever. -/
theorem updated_at_not_refreshed :
    (delete_expense 7 [sampleExpense]).map
        (fun e => (e.is_deleted, e.updated_at))
      = [(true, "2024-01-01 00:00:00")] ∧
    (update_expense 7 "amount" (SqlValue.intV 999) [sampleExpense]).map
        (fun l => l.map fun e => e.updated_at)
      = some ["2024-01-01 00:00:00"] ∧
    deletedIds softDeletedSource "2024-06-01 00:00:00" = [] ∧
    update_reporting_db softDeletedSource
        ⟨[rowOf sampleExpense sampleUser sampleCategory samplePayment],
          "2024-06-01 00:00:00"⟩
        "2024-06-02 00:00:00"
      = { denormalized_expenses :=
            [rowOf sampleExpense sampleUser sampleCategory samplePayment],
          last_sync_time := "2024-06-02 00:00:00" } := by decide

end ExpenseShare
